import Mathlib

/-!
A shallow embedding of `Auto-Transcriber/app.py` (job discovery, deduplication and
dispatch for a media-transcription pipeline).

Conventions of the embedding:
* Python strings (paths, file contents) are `List Char` (`PyStr`); string literals
  are written as `"...".toList`.
* Python sets of strings are lists up to membership: `set.add` is `pyAdd`
  (append when absent), `in` is list membership.
* The filesystem is an association list from path to contents; `os.path.exists`
  is `pathExists`, writing a file conses a binding (`fsWrite`).
* `os.walk` over the monitored tree is a parameter: the list of
  `(root, filename)` pairs it yields.
* The transcription engine (`WhisperModel.transcribe` plus joining segment
  texts) is a parameter `engine : PyStr → Except Unit PyStr`; `.error` models a
  raised exception, which the worker's `except` clause catches.
* Fallible Python code returns `Except`.
The `os.path` helpers (`basename`, `dirname`, `join`, `splitext`) are translated
from CPython's `posixpath` implementation.
-/

abbrev PyStr := List Char

/-- `os.path.basename p`: the part of `p` after the last `'/'`. -/
def pyBasename (p : PyStr) : PyStr :=
  ((p.reverse).takeWhile (fun c => c ≠ '/')).reverse

/-- `p[:i]` where `i = p.rfind('/') + 1` — the head kept by `posixpath.dirname`
before trailing-slash stripping. -/
def pyDirnameHead (p : PyStr) : PyStr :=
  ((p.reverse).dropWhile (fun c => c ≠ '/')).reverse

/-- `str.rstrip('/')`. -/
def pyRstripSlash (s : PyStr) : PyStr :=
  ((s.reverse).dropWhile (fun c => c = '/')).reverse

/-- `os.path.dirname p` (posixpath): everything before the last `'/'`, with
trailing slashes stripped unless the head consists only of slashes. -/
def pyDirname (p : PyStr) : PyStr :=
  let head := pyDirnameHead p
  if head ≠ [] ∧ ¬ head.all (fun c => c = '/') then pyRstripSlash head else head

/-- `os.path.join a b` (posixpath, two arguments). -/
def pyJoin (a b : PyStr) : PyStr :=
  if b.head? = some '/' then b
  else if a = [] ∨ a.getLast? = some '/' then a ++ b
  else a ++ '/' :: b

/-- `os.path.splitext p` (posixpath): split at the last `'.'` that lies after
the last `'/'` and has a non-dot character between them; otherwise the
extension is empty. -/
def pySplitext (p : PyStr) : PyStr × PyStr :=
  let r := p.reverse
  let post := r.takeWhile (fun c => c ≠ '.')
  if post.length = r.length then (p, [])
  else if '/' ∈ post then (p, [])
  else
    let pre := (r.drop (post.length + 1)).reverse
    if ∀ c ∈ pyBasename pre, c = '.' then (p, [])
    else (pre, '.' :: post.reverse)

/-- `s.endswith(suf)`. -/
def pyEndswith (suf s : PyStr) : Bool :=
  suf.isSuffixOf s

/-- `str.replace(".txt", "")`: remove every (left-to-right, non-overlapping)
occurrence of `".txt"`. -/
def removeDotTxt : PyStr → PyStr
  | '.' :: 't' :: 'x' :: 't' :: rest => removeDotTxt rest
  | c :: rest => c :: removeDotTxt rest
  | [] => []

/-- `MONITORED_FOLDER = "media_files"`. -/
def MONITORED_FOLDER : PyStr := "media_files".toList

/-- `SUPPORTED_FORMATS`. The Python value is a `set` literal whose iteration
order is unspecified; the embedding fixes the order of the source text. -/
def SUPPORTED_FORMATS : List PyStr :=
  [".mp3".toList, ".wav".toList, ".mp4".toList, ".mkv".toList,
   ".mov".toList, ".flv".toList, ".aac".toList, ".m4a".toList]

/-- `any(s.endswith(ext) for ext in SUPPORTED_FORMATS)` — the supported-media
test used by the scanner (on the filename) and the watcher (on the event
path). -/
def isSupportedFile (s : PyStr) : Bool :=
  SUPPORTED_FORMATS.any (fun ext => pyEndswith ext s)

/-- The filesystem: an association list from path to contents; a path exists
iff it is bound. -/
abbrev Fs := List (PyStr × PyStr)

/-- `os.path.exists`. -/
def pathExists (fs : Fs) (p : PyStr) : Bool :=
  fs.any (fun e => e.1 == p)

/-- `open(p, "w").write(c)`: (re)bind `p`; reads take the newest binding. -/
def fsWrite (fs : Fs) (p c : PyStr) : Fs :=
  (p, c) :: fs

/-- `set.add` on a set modelled as a list up to membership. -/
def pyAdd (s : List PyStr) (x : PyStr) : List PyStr :=
  if x ∈ s then s else s ++ [x]

/-- A Python value produced by `json.load`. -/
inductive PyJson where
  | null
  | boolean (b : Bool)
  | num (n : Int)
  | str (s : PyStr)
  | arr (elts : List PyJson)
  | obj (entries : List (PyStr × PyJson))

/-- A Python exception escaping the modelled code. -/
inductive PyErr where
  | typeError
deriving DecidableEq

/-- `set(x)` on a json-decoded value: iterating a list yields its elements, a
string its characters, a dict its keys; `None`, booleans and numbers are not
iterable, so `set(x)` raises `TypeError`. -/
def pyIterSet : PyJson → Except PyErr (List PyJson)
  | .arr elts => .ok elts
  | .str s => .ok (s.map fun c => .str [c])
  | .obj entries => .ok (entries.map fun kv => .str kv.1)
  | _ => .error .typeError

/-- `load_processed_files()`. The ledger file state is `none` when
`PROCESSED_FILES_DB` does not exist (the global keeps its prior value), and
`some r` when it exists, where `r` is the outcome of `json.load`: `.error`
models a `JSONDecodeError` (caught: the set is reset to empty) and `.ok j` a
decoded value fed to `set(...)`, whose `TypeError` is NOT caught. -/
def load_processed_files (db : Option (Except Unit PyJson)) (prior : List PyJson) :
    Except PyErr (List PyJson) :=
  match db with
  | none => .ok prior
  | some (.error _) => .ok []
  | some (.ok j) => pyIterSet j

/-- `save_processed_files()`: write `list(processed_files)` as the new ledger
file contents. -/
def save_processed_files (processed : List PyStr) : List PyStr :=
  processed

/-- `get_transcription_path(file_path)`. -/
def get_transcription_path (file_path : PyStr) : PyStr :=
  pyJoin (pyDirname file_path)
    ((pySplitext (pyBasename file_path)).1 ++ ".txt".toList)

/-- One worker process. `fs` and `ledger` live on the (shared) filesystem;
`processed` is this process's own in-memory copy of the `processed_files`
global (worker processes do not share memory). -/
structure WorkerState where
  fs : Fs
  processed : List PyStr
  ledger : List PyStr
deriving DecidableEq

/-- The body of `transcriber_worker`'s loop for one dequeued media job
`file_path` (the sentinel and the `Empty` timeout are handled before this
point). Returns the new state and whether `model.transcribe` was invoked.
An `.error` from the engine is the exception caught by the worker's `except`
clause: nothing is written and the loop continues. -/
def transcriber_worker_step (engine : PyStr → Except Unit PyStr)
    (st : WorkerState) (file_path : PyStr) : WorkerState × Bool :=
  let transcript_path := get_transcription_path file_path
  if file_path ∈ st.processed ∧ pathExists st.fs transcript_path = true then
    (st, false)
  else
    match engine file_path with
    | .error _ => (st, true)
    | .ok transcript =>
      let processed := pyAdd st.processed file_path
      ({ fs := fsWrite st.fs transcript_path transcript
         processed := processed
         ledger := save_processed_files processed }, true)

/-- The loop body of `process_untranscribed_files()` for one walked
`(root, filename)` pair: enqueue and speculatively mark the file iff its name
ends with a supported extension and its transcript does not exist on disk.
The accumulator carries (jobs enqueued so far, processed set so far). -/
def scanStep (fs : Fs) (acc : List PyStr × List PyStr) (rf : PyStr × PyStr) :
    List PyStr × List PyStr :=
  let file_path := pyJoin rf.1 rf.2
  if isSupportedFile rf.2 && !pathExists fs (get_transcription_path file_path) then
    (acc.1 ++ [file_path], pyAdd acc.2 file_path)
  else acc

/-- `process_untranscribed_files()` after `load_processed_files()` has set the
in-memory set to `processed₀`. `walk` is the list of `(root, filename)` pairs
yielded by `os.walk(MONITORED_FOLDER)`. Returns the enqueued jobs in order and
the final processed set, which `save_processed_files()` then persists. -/
def process_untranscribed_files (processed₀ : List PyStr)
    (walk : List (PyStr × PyStr)) (fs : Fs) : List PyStr × List PyStr :=
  walk.foldl (scanStep fs) ([], processed₀)

/-- Specification-side characterization of the scanner's enqueued jobs: the
walked files with a supported suffix whose transcript is absent, in walk
order. Compared against `process_untranscribed_files` in the proofs. -/
def scanJobs (walk : List (PyStr × PyStr)) (fs : Fs) : List PyStr :=
  (walk.filter fun rf =>
    isSupportedFile rf.2 && !pathExists fs (get_transcription_path (pyJoin rf.1 rf.2))).map
    fun rf => pyJoin rf.1 rf.2

/-- `MediaFileHandler.on_created`: the jobs enqueued for a create event
(`isDir`, `src`) against filesystem `fs` (the state seen after the settle
delay). -/
def on_created (fs : Fs) (isDir : Bool) (src : PyStr) : List PyStr :=
  if !isDir && isSupportedFile src then
    if pathExists fs src && !pathExists fs (get_transcription_path src) then [src]
    else []
  else []

/-- `MediaFileHandler.on_moved`: the jobs enqueued for a move event. -/
def on_moved (fs : Fs) (isDir : Bool) (src dest : PyStr) : List PyStr :=
  if !isDir && isSupportedFile dest then
    if !pathExists fs (get_transcription_path dest) then [dest]
    else []
  else []

/-- `MediaFileHandler.on_deleted`: the jobs enqueued for a delete event. The
basename has every `".txt"` occurrence removed (`str.replace`), then the top
level of `MONITORED_FOLDER` is probed for each supported extension and the
first hit is enqueued. -/
def on_deleted (fs : Fs) (isDir : Bool) (src : PyStr) : List PyStr :=
  if !isDir && pyEndswith ".txt".toList src then
    let filename := removeDotTxt (pyBasename src)
    match SUPPORTED_FORMATS.find?
        (fun ext => pathExists fs (pyJoin MONITORED_FOLDER (filename ++ ext))) with
    | some ext => [pyJoin MONITORED_FOLDER (filename ++ ext)]
    | none => []
  else []

/-- Two worker processes interleaved on the shared filesystem: worker 1 (local
set `w1proc`) handles `p1`, then worker 2 (local set `w2proc` — worker 1's
in-memory additions are not visible across the process boundary) handles `p2`
on the filesystem and ledger worker 1 left behind. Returns the ledger contents
after each worker's step. -/
def crossProcessSchedule (engine : PyStr → Except Unit PyStr) (fs₀ : Fs)
    (ledger₀ w1proc w2proc : List PyStr) (p1 p2 : PyStr) :
    List PyStr × List PyStr :=
  let r1 := transcriber_worker_step engine ⟨fs₀, w1proc, ledger₀⟩ p1
  let r2 := transcriber_worker_step engine ⟨r1.1.fs, w2proc, r1.1.ledger⟩ p2
  (r1.1.ledger, r2.1.ledger)

/-- A constant transcription engine, used for concrete runs. -/
def constEngine (t : PyStr) : PyStr → Except Unit PyStr :=
  fun _ => .ok t

/-! ### Lemmas about the `os.path` helpers -/

lemma head?_dropWhile_false {α} {q : α → Bool} {l : List α} {a : α}
    (h : (l.dropWhile q).head? = some a) : q a = false := by
  induction l with
  | nil => simp [List.dropWhile] at h
  | cons x t ih =>
    rw [List.dropWhile_cons] at h
    by_cases hx : q x = true
    · rw [if_pos hx] at h; exact ih h
    · rw [if_neg hx] at h
      simp only [List.head?_cons, Option.some.injEq] at h
      subst h
      exact Bool.eq_false_iff.2 hx

lemma dropWhile_eq_self_of_head {α} {q : α → Bool} {l : List α} {a : α}
    (hh : l.head? = some a) (ha : q a = false) : l.dropWhile q = l := by
  cases l with
  | nil => rfl
  | cons x t =>
    simp only [List.head?_cons, Option.some.injEq] at hh
    subst hh
    exact List.dropWhile_cons_of_neg (by simp [ha])

lemma not_slash_mem_pyBasename (p : PyStr) : '/' ∉ pyBasename p := by
  intro h
  unfold pyBasename at h
  rw [List.mem_reverse] at h
  have h2 := List.mem_takeWhile_imp h
  simp at h2

lemma pyBasename_eq_self {n : PyStr} (hn : ∀ c ∈ n, c ≠ '/') : pyBasename n = n := by
  unfold pyBasename
  rw [List.takeWhile_eq_self_iff.2 ?_, List.reverse_reverse]
  intro x hx
  simpa using hn x (List.mem_reverse.1 hx)

lemma pyBasename_append_cons {d n : PyStr} (hn : ∀ c ∈ n, c ≠ '/') :
    pyBasename (d ++ '/' :: n) = n := by
  unfold pyBasename
  rw [List.reverse_append, List.reverse_cons, List.append_assoc,
    List.takeWhile_append_of_pos (fun a ha => by simpa using hn a (List.mem_reverse.1 ha))]
  simp

lemma pyBasename_slashes_append {d n : PyStr} (hd_ne : d ≠ [])
    (hall : ∀ c ∈ d, c = '/') (hn : ∀ c ∈ n, c ≠ '/') :
    pyBasename (d ++ n) = n := by
  unfold pyBasename
  rw [List.reverse_append,
    List.takeWhile_append_of_pos (fun a ha => by simpa using hn a (List.mem_reverse.1 ha))]
  obtain ⟨x, t, hxt⟩ := List.exists_cons_of_ne_nil (by simpa using hd_ne : d.reverse ≠ [])
  have hx : x = '/' := hall x (by rw [← List.mem_reverse, hxt]; exact List.mem_cons_self x t)
  rw [hxt, List.takeWhile_cons_of_neg (by simp [hx])]
  simp

lemma pyDirname_no_slash {n : PyStr} (hn : ∀ c ∈ n, c ≠ '/') : pyDirname n = [] := by
  unfold pyDirname pyDirnameHead
  rw [List.dropWhile_eq_nil_iff.2 (fun x hx => by simpa using hn x (List.mem_reverse.1 hx))]
  simp

lemma pyDirname_slashes_append {d n : PyStr} (hd_ne : d ≠ [])
    (hall : ∀ c ∈ d, c = '/') (hn : ∀ c ∈ n, c ≠ '/') :
    pyDirname (d ++ n) = d := by
  unfold pyDirname pyDirnameHead
  rw [List.reverse_append,
    List.dropWhile_append_of_pos (fun a ha => by simpa using hn a (List.mem_reverse.1 ha))]
  obtain ⟨x, t, hxt⟩ := List.exists_cons_of_ne_nil (by simpa using hd_ne : d.reverse ≠ [])
  have hx : x = '/' := hall x (by rw [← List.mem_reverse, hxt]; exact List.mem_cons_self x t)
  rw [hxt, List.dropWhile_cons_of_neg (by simp [hx]), ← hxt, List.reverse_reverse]
  rw [if_neg ?_]
  push_neg
  intro _
  exact List.all_eq_true.2 (fun c hc => by simpa using hall c hc)

lemma pyDirname_append_cons {d n : PyStr} (hn : ∀ c ∈ n, c ≠ '/')
    {c : Char} (hc : d.getLast? = some c) (hcs : c ≠ '/') :
    pyDirname (d ++ '/' :: n) = d := by
  have hd_ne : d ≠ [] := by intro h; rw [h] at hc; simp at hc
  unfold pyDirname pyDirnameHead
  rw [List.reverse_append, List.reverse_cons, List.append_assoc,
    List.dropWhile_append_of_pos (fun a ha => by simpa using hn a (List.mem_reverse.1 ha))]
  rw [show (['/'] ++ d.reverse) = '/' :: d.reverse from rfl,
    List.dropWhile_cons_of_neg (by simp), List.reverse_cons, List.reverse_reverse]
  rw [if_pos ?_]
  · unfold pyRstripSlash
    rw [List.reverse_append]
    rw [show (['/'].reverse ++ d.reverse : PyStr) = '/' :: d.reverse from rfl,
      List.dropWhile_cons_of_pos (by simp)]
    rw [dropWhile_eq_self_of_head (by rw [List.head?_reverse]; exact hc) (by simp [hcs])]
    exact List.reverse_reverse d
  · refine ⟨by simp, ?_⟩
    intro hall
    have := List.all_eq_true.1 hall c (by
      rw [List.mem_append]
      exact Or.inl (List.mem_of_mem_getLast? (Option.mem_def.mpr hc)))
    simp at this
    exact hcs this

lemma pyDirname_all_slash {p : PyStr} (h : (pyDirname p).getLast? = some '/') :
    pyDirname p ≠ [] ∧ ∀ c ∈ pyDirname p, c = '/' := by
  refine ⟨by intro hnil; rw [hnil] at h; simp at h, ?_⟩
  unfold pyDirname at h ⊢
  by_cases hcnd : pyDirnameHead p ≠ [] ∧ ¬ (pyDirnameHead p).all (fun c => c = '/')
  · exfalso
    rw [if_pos hcnd] at h
    unfold pyRstripSlash at h
    rw [List.getLast?_reverse] at h
    have := head?_dropWhile_false h
    simp at this
  · rw [if_neg hcnd] at h ⊢
    rcases not_and_or.mp hcnd with h1 | h2
    · exfalso
      rw [not_ne_iff.mp h1] at h
      simp at h
    · intro c hcmem
      have := List.all_eq_true.1 (not_not.mp h2) c hcmem
      simpa using this

lemma pyJoin_append_case {d n : PyStr} (hn : n.head? ≠ some '/')
    (hd : d = [] ∨ d.getLast? = some '/') : pyJoin d n = d ++ n := by
  unfold pyJoin
  rw [if_neg hn, if_pos hd]

lemma pyJoin_cons_case {d n : PyStr} (hn : n.head? ≠ some '/')
    (hd : ¬(d = [] ∨ d.getLast? = some '/')) : pyJoin d n = d ++ '/' :: n := by
  unfold pyJoin
  rw [if_neg hn, if_neg hd]

lemma mem_pySplitext_fst {c : Char} {b : PyStr} (h : c ∈ (pySplitext b).1) : c ∈ b := by
  unfold pySplitext at h
  dsimp only at h
  split at h
  · exact h
  · split at h
    · exact h
    · split at h
      · exact h
      · simp only at h
        rw [List.mem_reverse] at h
        exact List.mem_reverse.1 (List.drop_subset _ _ h)

lemma head?_ne_slash {n : PyStr} (hn : ∀ c ∈ n, c ≠ '/') : n.head? ≠ some '/' := by
  cases n with
  | nil => simp
  | cons a t =>
    intro ha
    exact hn a (List.mem_cons_self a t) (Option.some.inj ha)

lemma gtp_parts (p : PyStr) :
    pyDirname (get_transcription_path p) = pyDirname p ∧
    pyBasename (get_transcription_path p) = (pySplitext (pyBasename p)).1 ++ ".txt".toList := by
  have hgtp : get_transcription_path p =
      pyJoin (pyDirname p) ((pySplitext (pyBasename p)).1 ++ ".txt".toList) := rfl
  set n := (pySplitext (pyBasename p)).1 ++ ".txt".toList with hn_def
  have hn : ∀ c ∈ n, c ≠ '/' := by
    intro c hc
    rcases List.mem_append.1 hc with hcl | hcr
    · intro hslash
      exact not_slash_mem_pyBasename p (hslash ▸ mem_pySplitext_fst hcl)
    · have hcr2 : c ∈ (['.', 't', 'x', 't'] : PyStr) := hcr
      have hcr3 : c = '.' ∨ c = 't' ∨ c = 'x' ∨ c = 't' := by simpa using hcr2
      rcases hcr3 with h | h | h | h <;> subst h <;> decide
  have hhead : n.head? ≠ some '/' := head?_ne_slash hn
  rw [hgtp]
  by_cases hd : pyDirname p = []
  · rw [hd, pyJoin_append_case hhead (Or.inl rfl), List.nil_append]
    exact ⟨pyDirname_no_slash hn, pyBasename_eq_self hn⟩
  · obtain ⟨c, hc⟩ : ∃ c, (pyDirname p).getLast? = some c := by
      cases hgl : (pyDirname p).getLast? with
      | none => exact absurd (List.getLast?_eq_none_iff.1 hgl) hd
      | some c => exact ⟨c, rfl⟩
    by_cases hcs : c = '/'
    · subst hcs
      obtain ⟨hne', hall⟩ := pyDirname_all_slash hc
      rw [pyJoin_append_case hhead (Or.inr hc)]
      exact ⟨pyDirname_slashes_append hne' hall hn, pyBasename_slashes_append hne' hall hn⟩
    · rw [pyJoin_cons_case hhead ?_]
      · exact ⟨pyDirname_append_cons hn hc hcs, pyBasename_append_cons hn⟩
      · rintro (h | h)
        · exact hd h
        · rw [hc] at h
          exact hcs (Option.some.inj h)

lemma pySplitext_append_ext {s tail : PyStr} (hs : ∀ c ∈ s, c ≠ '/')
    (hw : ∃ c ∈ s, c ≠ '.') (ht : ∀ c ∈ tail, c ≠ '.' ∧ c ≠ '/') :
    pySplitext (s ++ '.' :: tail) = (s, '.' :: tail) := by
  have hrev : (s ++ '.' :: tail).reverse = tail.reverse ++ '.' :: s.reverse := by
    rw [List.reverse_append, List.reverse_cons, List.append_assoc]
    rfl
  unfold pySplitext
  dsimp only
  rw [hrev,
    List.takeWhile_append_of_pos (fun a ha => by simpa using (ht a (List.mem_reverse.1 ha)).1),
    List.takeWhile_cons_of_neg (by simp), List.append_nil]
  rw [if_neg (by simp)]
  rw [if_neg (fun hmem => (ht '/' (List.mem_reverse.1 hmem)).2 rfl)]
  have hdrop : (tail.reverse ++ '.' :: s.reverse).drop (tail.reverse.length + 1) = s.reverse := by
    rw [show tail.reverse ++ '.' :: s.reverse = (tail.reverse ++ ['.']) ++ s.reverse by
      rw [List.append_assoc]; rfl]
    rw [show tail.reverse.length + 1 = (tail.reverse ++ ['.']).length by simp]
    exact List.drop_left _ _
  rw [hdrop, List.reverse_reverse]
  rw [if_neg ?_]
  · rw [List.reverse_reverse]
  · rw [pyBasename_eq_self hs]
    push_neg
    exact hw

lemma pySplitext_append_txt {s : PyStr} (hs : ∀ c ∈ s, c ≠ '/')
    (hw : ∃ c ∈ s, c ≠ '.') :
    pySplitext (s ++ ".txt".toList) = (s, ".txt".toList) := by
  have htl : (".txt".toList : PyStr) = '.' :: ['t', 'x', 't'] := rfl
  rw [htl]
  exact pySplitext_append_ext hs hw (by decide)

lemma removeDotTxt_cons_ne {c : Char} (l : PyStr) (h : c ≠ '.') :
    removeDotTxt (c :: l) = c :: removeDotTxt l := by
  rw [removeDotTxt.eq_def]
  split
  · next rest heq =>
    exact absurd (List.cons.inj heq).1 h
  · next c' rest heq =>
    obtain ⟨h1, h2⟩ := List.cons.inj heq
    rw [h1, h2]
  · next heq => exact absurd heq (List.cons_ne_nil c l)

lemma removeDotTxt_append_txt {s : PyStr} (hs : ∀ c ∈ s, c ≠ '.') :
    removeDotTxt (s ++ ".txt".toList) = s := by
  induction s with
  | nil => decide
  | cons c t ih =>
    rw [List.cons_append, removeDotTxt_cons_ne _ (hs c (List.mem_cons_self c t)),
      ih (fun x hx => hs x (List.mem_cons_of_mem c hx))]

lemma find?_eq_some_of_unique {α} {l : List α} {q : α → Bool} {a : α}
    (ha : a ∈ l) (hqa : q a = true) (huniq : ∀ b ∈ l, q b = true → b = a) :
    l.find? q = some a := by
  induction l with
  | nil => simp at ha
  | cons x t ih =>
    by_cases hx : q x = true
    · rw [List.find?_cons_of_pos t hx]
      exact congrArg some (huniq x (List.mem_cons_self x t) hx)
    · rw [List.find?_cons_of_neg t hx]
      rcases List.mem_cons.1 ha with rfl | hat
      · exact absurd hqa hx
      · exact ih hat (fun b hb hqb => huniq b (List.mem_cons_of_mem x hb) hqb)

lemma scan_foldl_aux (fs : Fs) (walk : List (PyStr × PyStr)) :
    ∀ j pr, (walk.foldl (scanStep fs) (j, pr)).1 = j ++ scanJobs walk fs := by
  induction walk with
  | nil =>
    intro j pr
    simp [scanJobs]
  | cons rf rest ih =>
    intro j pr
    rw [List.foldl_cons]
    by_cases hc :
        (isSupportedFile rf.2 &&
          !pathExists fs (get_transcription_path (pyJoin rf.1 rf.2))) = true
    · rw [show scanStep fs (j, pr) rf =
          (j ++ [pyJoin rf.1 rf.2], pyAdd pr (pyJoin rf.1 rf.2)) from by
        unfold scanStep; dsimp only; rw [if_pos hc]]
      rw [ih]
      unfold scanJobs
      rw [List.filter_cons, if_pos hc, List.map_cons, List.append_assoc]
      rfl
    · rw [show scanStep fs (j, pr) rf = (j, pr) from by
        unfold scanStep; dsimp only; rw [if_neg hc]]
      rw [ih]
      unfold scanJobs
      rw [List.filter_cons, if_neg hc]

lemma scan_fst_eq (processed₀ : List PyStr) (walk : List (PyStr × PyStr)) (fs : Fs) :
    (process_untranscribed_files processed₀ walk fs).1 = scanJobs walk fs := by
  unfold process_untranscribed_files
  rw [scan_foldl_aux fs walk [] processed₀, List.nil_append]

lemma pyEndswith_iff {suf s : PyStr} : pyEndswith suf s = true ↔ suf <:+ s := by
  unfold pyEndswith
  exact List.isSuffixOf_iff_suffix

lemma isSupportedFile_iff {s : PyStr} :
    isSupportedFile s = true ↔ ∃ ext ∈ SUPPORTED_FORMATS, ext <:+ s := by
  unfold isSupportedFile
  rw [List.any_eq_true]
  constructor
  · rintro ⟨ext, hm, he⟩
    exact ⟨ext, hm, pyEndswith_iff.1 he⟩
  · rintro ⟨ext, hm, he⟩
    exact ⟨ext, hm, pyEndswith_iff.2 he⟩

lemma suffix_pyJoin {a b ext : PyStr} (h : ext <:+ b) : ext <:+ pyJoin a b := by
  unfold pyJoin
  split
  · exact h
  · split
    · exact h.trans (List.suffix_append a b)
    · refine h.trans ?_
      rw [show a ++ '/' :: b = (a ++ ['/']) ++ b by simp]
      exact List.suffix_append _ _

lemma isSupportedFile_pyJoin {a b : PyStr} (h : isSupportedFile b = true) :
    isSupportedFile (pyJoin a b) = true := by
  obtain ⟨ext, hm, hs⟩ := isSupportedFile_iff.1 h
  exact isSupportedFile_iff.2 ⟨ext, hm, suffix_pyJoin hs⟩

lemma formats_shape :
    ∀ ext ∈ SUPPORTED_FORMATS, ext.head? = some '.' ∧ ∀ c ∈ ext.tail, c ≠ '.' ∧ c ≠ '/' := by
  decide

lemma pyJoin_MF {n : PyStr} (hn : n.head? ≠ some '/') :
    pyJoin MONITORED_FOLDER n = MONITORED_FOLDER ++ '/' :: n :=
  pyJoin_cons_case hn (by decide)

/-! ### Claim theorems -/

/-- C1 (counterexample): the transcript for `media_files/a.mp3` exists on disk,
yet a worker whose in-memory `processed_files` does not contain the path (here:
empty, e.g. after a ledger reset or in a sibling worker process) invokes the
engine on a dequeued duplicate job and rewrites the transcript — the skip
requires membership AND existence, so transcript existence alone does not
suppress re-processing. -/
theorem C1_counterexample :
    pathExists [("media_files/a.txt".toList, "old".toList)]
      (get_transcription_path "media_files/a.mp3".toList) = true ∧
    (transcriber_worker_step (constEngine "new".toList)
      ⟨[("media_files/a.txt".toList, "old".toList)], [], []⟩
      "media_files/a.mp3".toList).2 = true ∧
    (transcriber_worker_step (constEngine "new".toList)
      ⟨[("media_files/a.txt".toList, "old".toList)], [], []⟩
      "media_files/a.mp3".toList).1.fs ≠
      [("media_files/a.txt".toList, "old".toList)] :=
  ⟨by decide, by decide, by decide⟩

/-- C1 (amended): per-path at-most-once holds only jointly with the ledger:
when a dequeued job's path is in the worker's in-memory `processed_files` AND
its resolved transcript file exists, the worker skips it — no engine call, no
write, state unchanged. -/
theorem C1_per_path_skip_amended (engine : PyStr → Except Unit PyStr)
    (st : WorkerState) (p : PyStr) (hmem : p ∈ st.processed)
    (hex : pathExists st.fs (get_transcription_path p) = true) :
    transcriber_worker_step engine st p = (st, false) := by
  unfold transcriber_worker_step
  dsimp only
  rw [if_pos ⟨hmem, hex⟩]

/-- C1 (witness for the amended theorem at a concrete input). -/
theorem C1_witness :
    transcriber_worker_step (constEngine "t".toList)
      ⟨[("media_files/a.txt".toList, "old".toList)],
        ["media_files/a.mp3".toList], ["media_files/a.mp3".toList]⟩
      "media_files/a.mp3".toList =
    (⟨[("media_files/a.txt".toList, "old".toList)],
        ["media_files/a.mp3".toList], ["media_files/a.mp3".toList]⟩, false) :=
  C1_per_path_skip_amended _ _ _ (by decide) (by decide)

/-- C3 (code bug): `load_processed_files` returns the prior set when the
ledger file is missing and an empty set when `json.load` fails to parse, but a
ledger whose contents are valid JSON yet not iterable — e.g. the number `5` —
makes `set(json.load(f))` raise `TypeError`, which is caught by neither
`except` clause: the load raises instead of returning an empty set. -/
theorem C3_ledger_resilience_code_bug :
    load_processed_files none [] = Except.ok [] ∧
    load_processed_files (some (Except.error ())) [] = Except.ok [] ∧
    load_processed_files (some (Except.ok (PyJson.num 5))) [] =
      Except.error PyErr.typeError :=
  ⟨rfl, rfl, rfl⟩

/-- C4: a worker skips a dequeued job (state unchanged, engine not invoked)
iff the path is in its `processed_files` AND the resolved transcript exists;
otherwise it invokes the engine and, when the engine yields a transcript,
writes the transcript, adds the path to the set, and persists the ledger. -/
theorem C4_worker_duplicate_suppression (engine : PyStr → Except Unit PyStr)
    (st : WorkerState) (p : PyStr) :
    (transcriber_worker_step engine st p = (st, false) ↔
      p ∈ st.processed ∧ pathExists st.fs (get_transcription_path p) = true) ∧
    (∀ t, ¬(p ∈ st.processed ∧ pathExists st.fs (get_transcription_path p) = true) →
      engine p = .ok t →
      transcriber_worker_step engine st p =
        ({ fs := fsWrite st.fs (get_transcription_path p) t
           processed := pyAdd st.processed p
           ledger := save_processed_files (pyAdd st.processed p) }, true)) := by
  constructor
  · constructor
    · intro heq
      by_contra hnc
      have h2 : (transcriber_worker_step engine st p).2 = true := by
        unfold transcriber_worker_step
        dsimp only
        rw [if_neg hnc]
        cases engine p <;> rfl
      rw [heq] at h2
      simp at h2
    · intro hc
      unfold transcriber_worker_step
      dsimp only
      rw [if_pos hc]
  · intro t hnc heng
    unfold transcriber_worker_step
    dsimp only
    rw [if_neg hnc, heng]

/-- C4 (witness at a concrete input: empty state, engine succeeds). -/
theorem C4_witness :
    transcriber_worker_step (constEngine "text".toList) ⟨[], [], []⟩
      "media_files/a.mp3".toList =
    ({ fs := fsWrite [] (get_transcription_path "media_files/a.mp3".toList)
          "text".toList
       processed := pyAdd [] "media_files/a.mp3".toList
       ledger := save_processed_files (pyAdd [] "media_files/a.mp3".toList) },
      true) :=
  (C4_worker_duplicate_suppression _ _ _).2 "text".toList (by decide) rfl

/-- C7: the resolved transcript path lives in the same directory as the media
path and its filename is the media basename's stem followed by the fixed
`".txt"` suffix; `get_transcription_path` is a total function (no I/O, no
error cases). -/
theorem C7_transcript_path_resolver (p : PyStr) :
    pyDirname (get_transcription_path p) = pyDirname p ∧
    pyBasename (get_transcription_path p) =
      (pySplitext (pyBasename p)).1 ++ ".txt".toList :=
  gtp_parts p

/-- C8 (code bug): two workers in separate processes each hold their own copy
of `processed_files`; worker 1 transcribes `a.mp3` and persists a ledger
containing it, then worker 2 (whose copy never saw that addition) transcribes
`b.mp3` and persists — the later persist drops `a.mp3`: a lost update the
spec's serialization policy forbids. -/
theorem C8_ledger_lost_update :
    (crossProcessSchedule (constEngine "t".toList) [] [] [] []
        "media_files/a.mp3".toList "media_files/b.mp3".toList).1 =
      ["media_files/a.mp3".toList] ∧
    "media_files/a.mp3".toList ∉
      (crossProcessSchedule (constEngine "t".toList) [] [] [] []
        "media_files/a.mp3".toList "media_files/b.mp3".toList).2 :=
  ⟨by decide, by decide⟩

/-- C9 (counterexample): the resolver is not idempotent on every path — for
`"media_files/"` (empty basename stem) the resolved transcript path
`"media_files/.txt"` resolves further to `"media_files/.txt.txt"`. -/
theorem C9_counterexample :
    get_transcription_path (get_transcription_path "media_files/".toList) ≠
      get_transcription_path "media_files/".toList := by
  decide

/-- C9 (amended): the resolver is idempotent on every path whose basename's
stem contains at least one non-dot character (in particular on every ordinary
media path); the counterexample shows the empty/all-dot-stem cases genuinely
fail. -/
theorem C9_resolver_idempotent_amended (p : PyStr)
    (h : ∃ c ∈ (pySplitext (pyBasename p)).1, c ≠ '.') :
    get_transcription_path (get_transcription_path p) =
      get_transcription_path p := by
  have hd := (gtp_parts p).1
  have hb := (gtp_parts p).2
  have hslash : ∀ c ∈ (pySplitext (pyBasename p)).1, c ≠ '/' :=
    fun c hc hs => not_slash_mem_pyBasename p (hs ▸ mem_pySplitext_fst hc)
  have hsplit := pySplitext_append_txt hslash h
  show pyJoin (pyDirname (get_transcription_path p))
      ((pySplitext (pyBasename (get_transcription_path p))).1 ++ ".txt".toList) =
    get_transcription_path p
  rw [hd, hb, hsplit]
  rfl

/-- C9 (witness for the amended theorem at a concrete input). -/
theorem C9_witness :
    get_transcription_path (get_transcription_path "media_files/a.mp3".toList) =
      get_transcription_path "media_files/a.mp3".toList :=
  C9_resolver_idempotent_amended _ ⟨'a', by decide, by decide⟩

/-- C10: a notification whose subject is a directory is inert in all three
watcher handlers — no job is enqueued and nothing is written, whatever the
directory's name. -/
theorem C10_directory_events_inert (fs : Fs) (src dest : PyStr) :
    on_created fs true src = [] ∧ on_moved fs true src dest = [] ∧
    on_deleted fs true src = [] :=
  ⟨rfl, rfl, rfl⟩

/-- C2 (counterexample): a walk finding `a.mp3` with no transcript on disk
enqueues it on the first scan, and — with the filesystem and the persisted
processed set unchanged — enqueues it again on the second scan: the scan's
enqueue test never consults the processed set, so the second run is not
empty. -/
theorem C2_counterexample :
    (process_untranscribed_files
        (process_untranscribed_files [] [(MONITORED_FOLDER, "a.mp3".toList)] []).2
        [(MONITORED_FOLDER, "a.mp3".toList)] []).1 =
      ["media_files/a.mp3".toList] ∧
    (process_untranscribed_files
        (process_untranscribed_files [] [(MONITORED_FOLDER, "a.mp3".toList)] []).2
        [(MONITORED_FOLDER, "a.mp3".toList)] []).1 ≠ [] :=
  ⟨by decide, by decide⟩

/-- C2 (amended): with no filesystem change between the runs, a second scan
enqueues exactly the same jobs as the first — whatever processed set the first
run persisted — because the enqueued set depends only on the walk and the
filesystem; it is empty only when the first run's was. -/
theorem C2_scan_idempotence_amended (processed₀ : List PyStr)
    (walk : List (PyStr × PyStr)) (fs : Fs) :
    (process_untranscribed_files
        (process_untranscribed_files processed₀ walk fs).2 walk fs).1 =
      (process_untranscribed_files processed₀ walk fs).1 := by
  rw [scan_fst_eq, scan_fst_eq]

/-- C6 (counterexample): the supported-media test is `endswith`, not extension
membership: the filename `.mp3` passes the test although its extension (as
computed by `os.path.splitext`) is empty and not in `SUPPORTED_FORMATS`, and
the scanner enqueues such a file placed in the watched root. -/
theorem C6_counterexample :
    isSupportedFile ".mp3".toList = true ∧
    (pySplitext ".mp3".toList).2 = [] ∧
    (pySplitext ".mp3".toList).2 ∉ SUPPORTED_FORMATS ∧
    (process_untranscribed_files [] [(MONITORED_FOLDER, ".mp3".toList)] []).1 =
      ["media_files/.mp3".toList] ∧
    (pySplitext "media_files/.mp3".toList).2 ∉ SUPPORTED_FORMATS :=
  ⟨by decide, by decide, by decide, by decide, by decide⟩

/-- C6 (amended): the supported-media test is true iff the path (case as
given) ends with some member of `SupportedFormatSet` as a string suffix; every
path enqueued by the scanner or by any watcher handler passes this test. -/
theorem C6_unsupported_never_enqueued_amended :
    (∀ s : PyStr, isSupportedFile s = true ↔ ∃ ext ∈ SUPPORTED_FORMATS, ext <:+ s) ∧
    (∀ processed₀ walk fs j, j ∈ (process_untranscribed_files processed₀ walk fs).1 →
      isSupportedFile j = true) ∧
    (∀ fs d s j, j ∈ on_created fs d s → isSupportedFile j = true) ∧
    (∀ fs d s dest j, j ∈ on_moved fs d s dest → isSupportedFile j = true) ∧
    (∀ fs d s j, j ∈ on_deleted fs d s → isSupportedFile j = true) := by
  refine ⟨fun s => isSupportedFile_iff, ?_, ?_, ?_, ?_⟩
  · intro processed₀ walk fs j hj
    rw [scan_fst_eq] at hj
    unfold scanJobs at hj
    obtain ⟨rf, hrf, rfl⟩ := List.mem_map.1 hj
    have hcnd := (List.mem_filter.1 hrf).2
    rw [Bool.and_eq_true] at hcnd
    exact isSupportedFile_pyJoin hcnd.1
  · intro fs d s j hj
    unfold on_created at hj
    split at hj
    · next hcond =>
      split at hj
      · rw [List.mem_singleton] at hj
        subst hj
        rw [Bool.and_eq_true] at hcond
        exact hcond.2
      · simp at hj
    · simp at hj
  · intro fs d s dest j hj
    unfold on_moved at hj
    split at hj
    · next hcond =>
      split at hj
      · rw [List.mem_singleton] at hj
        subst hj
        rw [Bool.and_eq_true] at hcond
        exact hcond.2
      · simp at hj
    · simp at hj
  · intro fs d s j hj
    unfold on_deleted at hj
    split at hj
    · next hcond =>
      dsimp only at hj
      split at hj
      · next ext hfind =>
        rw [List.mem_singleton] at hj
        subst hj
        have hm := List.mem_of_find?_eq_some hfind
        exact isSupportedFile_pyJoin
          (isSupportedFile_iff.2 ⟨ext, hm, List.suffix_append _ _⟩)
      · simp at hj
    · simp at hj

/-- C6 (witness: the amended theorem applied to a concrete scanner run). -/
theorem C6_witness : isSupportedFile "media_files/b.wav".toList = true :=
  C6_unsupported_never_enqueued_amended.2.1 []
    [(MONITORED_FOLDER, "b.wav".toList)] [] "media_files/b.wav".toList
    (by decide)

/-- C5 (counterexample): the delete handler removes every `".txt"` occurrence
from the deleted basename instead of taking its stem. Deleting
`media_files/a.txt.txt` — the transcript of the still-existing top-level media
file `media_files/a.txt.mp3`, with which it shares the stem `a.txt` — makes
the handler search for `a.mp3`, `a.wav`, … and enqueue nothing. -/
theorem C5_counterexample :
    pyEndswith ".txt".toList "media_files/a.txt.txt".toList = true ∧
    get_transcription_path "media_files/a.txt.mp3".toList =
      "media_files/a.txt.txt".toList ∧
    pathExists [("media_files/a.txt.mp3".toList, "m".toList)]
      "media_files/a.txt.mp3".toList = true ∧
    (pySplitext (pyBasename "media_files/a.txt.txt".toList)).1 =
      (pySplitext (pyBasename "media_files/a.txt.mp3".toList)).1 ∧
    on_deleted [("media_files/a.txt.mp3".toList, "m".toList)] false
      "media_files/a.txt.txt".toList = [] :=
  ⟨by decide, by decide, by decide, by decide, by decide⟩

/-- C5 (amended): the delete handler enqueues at most one job, and it searches
the watched root's top level for the deleted basename with every `".txt"`
occurrence removed (not the stem) plus a supported extension. Consequently,
for a top-level media path `media_files/name·ext` whose stem `name` contains
neither `'.'` nor `'/'`, if that media file still exists (and is the only
existing candidate for that stem), deleting its transcript enqueues exactly
one new job, for that media path. -/
theorem C5_delete_retranscription_amended :
    (∀ fs d s, (on_deleted fs d s).length ≤ 1) ∧
    (∀ (fs : Fs) (name ext : PyStr), ext ∈ SUPPORTED_FORMATS →
      (∀ c ∈ name, c ≠ '.' ∧ c ≠ '/') → name ≠ [] →
      pathExists fs (pyJoin MONITORED_FOLDER (name ++ ext)) = true →
      (∀ e ∈ SUPPORTED_FORMATS,
        pathExists fs (pyJoin MONITORED_FOLDER (name ++ e)) = true → e = ext) →
      on_deleted fs false
          (get_transcription_path (pyJoin MONITORED_FOLDER (name ++ ext))) =
        [pyJoin MONITORED_FOLDER (name ++ ext)]) := by
  constructor
  · intro fs d s
    unfold on_deleted
    split
    · dsimp only
      split <;> simp
    · simp
  · intro fs name ext hext hname hne hexists huniq
    obtain ⟨hh, htail⟩ := formats_shape ext hext
    obtain ⟨e0, etail, rfl⟩ : ∃ e0 etail, ext = e0 :: etail := by
      cases ext with
      | nil => simp at hh
      | cons a t => exact ⟨a, t, rfl⟩
    have he0 : e0 = '.' := by simpa using hh
    subst he0
    have htail' : ∀ c ∈ etail, c ≠ '.' ∧ c ≠ '/' := fun c hc => htail c hc
    obtain ⟨c0, nt, rfl⟩ : ∃ c0 nt, name = c0 :: nt := by
      cases name with
      | nil => exact absurd rfl hne
      | cons a t => exact ⟨a, t, rfl⟩
    have hname_slash : ∀ c ∈ (c0 :: nt) ++ '.' :: etail, c ≠ '/' := by
      intro c hc
      rcases List.mem_append.1 hc with h | h
      · exact (hname c h).2
      · rcases List.mem_cons.1 h with rfl | h
        · decide
        · exact (htail' c h).2
    have hhead : ((c0 :: nt) ++ '.' :: etail).head? ≠ some '/' := by
      rw [List.cons_append, List.head?_cons]
      intro h
      exact (hname c0 (List.mem_cons_self _ _)).2 (Option.some.inj h)
    have htxt_slash : ∀ c ∈ (c0 :: nt) ++ ".txt".toList, c ≠ '/' := by
      intro c hc
      rcases List.mem_append.1 hc with h | h
      · exact (hname c h).2
      · have h2 : c ∈ (['.', 't', 'x', 't'] : PyStr) := h
        have h3 : c = '.' ∨ c = 't' ∨ c = 'x' ∨ c = 't' := by simpa using h2
        rcases h3 with rfl | rfl | rfl | rfl <;> decide
    have hhead_txt : ((c0 :: nt) ++ ".txt".toList).head? ≠ some '/' := by
      rw [List.cons_append, List.head?_cons]
      intro h
      exact (hname c0 (List.mem_cons_self _ _)).2 (Option.some.inj h)
    have hm : pyJoin MONITORED_FOLDER ((c0 :: nt) ++ '.' :: etail) =
        MONITORED_FOLDER ++ '/' :: ((c0 :: nt) ++ '.' :: etail) := pyJoin_MF hhead
    have hsplit : pySplitext ((c0 :: nt) ++ '.' :: etail) = (c0 :: nt, '.' :: etail) :=
      pySplitext_append_ext (fun c h => (hname c h).2)
        ⟨c0, List.mem_cons_self _ _, (hname c0 (List.mem_cons_self _ _)).1⟩ htail'
    have hgtp : get_transcription_path (pyJoin MONITORED_FOLDER ((c0 :: nt) ++ '.' :: etail)) =
        MONITORED_FOLDER ++ '/' :: ((c0 :: nt) ++ ".txt".toList) := by
      unfold get_transcription_path
      rw [hm, pyDirname_append_cons hname_slash (c := 's') (by decide) (by decide),
        pyBasename_append_cons hname_slash, hsplit]
      exact pyJoin_MF hhead_txt
    rw [hgtp]
    unfold on_deleted
    rw [if_pos ?_]
    · dsimp only
      rw [pyBasename_append_cons htxt_slash,
        removeDotTxt_append_txt (fun c hc => (hname c hc).1)]
      have hfind : List.find?
          (fun e => pathExists fs (pyJoin MONITORED_FOLDER ((c0 :: nt) ++ e)))
          SUPPORTED_FORMATS = some ('.' :: etail) :=
        find?_eq_some_of_unique hext hexists huniq
      rw [hfind]
    · rw [Bool.not_false, Bool.true_and]
      refine pyEndswith_iff.2 ?_
      rw [show MONITORED_FOLDER ++ '/' :: ((c0 :: nt) ++ ".txt".toList) =
          (MONITORED_FOLDER ++ '/' :: (c0 :: nt)) ++ ".txt".toList by simp]
      exact List.suffix_append _ _

/-- C5 (witness: deleting `media_files/clip.txt` while `media_files/clip.mp4`
exists enqueues exactly that media path). -/
theorem C5_witness :
    on_deleted [("media_files/clip.mp4".toList, "m".toList)] false
      (get_transcription_path (pyJoin MONITORED_FOLDER ("clip".toList ++ ".mp4".toList))) =
    [pyJoin MONITORED_FOLDER ("clip".toList ++ ".mp4".toList)] :=
  C5_delete_retranscription_amended.2 _ "clip".toList ".mp4".toList
    (by decide) (by decide) (by decide) (by decide) (by decide)

example : pySplitext ".mp3".toList = (".mp3".toList, []) := by decide
example : pySplitext "a.mp3".toList = ("a".toList, ".mp3".toList) := by decide
example : pySplitext "a.txt.mp3".toList = ("a.txt".toList, ".mp3".toList) := by decide
example : pySplitext "..mp3".toList = ("..mp3".toList, []) := by decide
example : pyDirname "media_files/a.mp3".toList = "media_files".toList := by decide
example : pyDirname "a.mp3".toList = [] := by decide
example : pyDirname "/a".toList = ['/'] := by decide
example : pyBasename "media_files/a.mp3".toList = "a.mp3".toList := by decide
example : pyJoin "media_files".toList "a.txt".toList = "media_files/a.txt".toList := by decide
example : removeDotTxt "a.txt.txt".toList = ['a'] := by decide
example : removeDotTxt "a.txt".toList = ['a'] := by decide
example : pyEndswith ".txt".toList "media_files/a.txt".toList = true := by decide
